import Mathlib

/-!
Verification development for `map_rsid_to_grch38_coord_ensembl_api.py`,
the batched rsID → GRCh38 coordinate resolver of this repository.

Python strings are modeled as `List Char` (sequences of code points), so
that every operation is a computable structural function.  Python `set`s
of row strings are modeled as `Finset (List Char)`; Python floats in the
backoff policy only ever hold dyadic rationals (0.25 · 2^k, caps 10.0,
and the Retry-After value), so they are modeled exactly as `ℚ`.
The network is modeled as an environment prescribing, per batch index,
the sequence of outcomes (exception or HTTP response) that successive
attempts of `session.post` produce.  File writing is modeled as the
rendering of each row set into its newline-terminated line list.
-/

/-- Python strings, as lists of code points. -/
abbrev Str : Type := List Char

/-- Literal helper: the character list of a Lean string literal. -/
def str (s : String) : Str := s.data

/-- Whitespace characters recognized by Python `str.strip()` (the ASCII ones;
the inputs in question are ASCII). -/
def isPySpace (c : Char) : Bool :=
  c = ' ' || c = '\t' || c = '\n' || c = '\x0d' || c = '\x0b' || c = '\x0c'

/-- Model of Python `line.strip()`: drop whitespace from both ends. -/
def pyStrip (s : Str) : Str :=
  ((s.dropWhile isPySpace).reverse.dropWhile isPySpace).reverse

/-- Model of Python `s.startswith(pat)`. -/
def strHasPre (pat s : Str) : Bool :=
  match pat, s with
  | [], _ => true
  | _ :: _, [] => false
  | p :: ps, c :: cs => p == c && strHasPre ps cs

/-- Model of `read_rsids` (lines already read from the file): strip each
line, skip blanks, prepend "rs" when the line does not start with "rs",
and de-duplicate keeping first occurrences, via the `seen` accumulator. -/
def read_rsids_go (seen : List Str) : List Str → List Str
  | [] => []
  | line :: rest =>
    let s := pyStrip line
    if s = [] then read_rsids_go seen rest
    else
      let s2 := if strHasPre (str "rs") s then s else str "rs" ++ s
      if s2 ∈ seen then read_rsids_go seen rest
      else s2 :: read_rsids_go (s2 :: seen) rest

/-- `read_rsids`, from the list of input lines. -/
def read_rsids (lines : List Str) : List Str := read_rsids_go [] lines

/-- Model of `chunks(seq, n)` (`seq[i:i+n]` slices), with fuel bounding the
number of slices by `seq.length`; one slice removes at least one element
when `0 < n`, so the fuel never runs out. Python raises on `n = 0`; the
model returns `[]` there and theorems assume `0 < n`. -/
def chunksGo : Nat → List Str → Nat → List (List Str)
  | 0, _, _ => []
  | fuel + 1, seq, n =>
    if seq = [] then [] else seq.take n :: chunksGo fuel (seq.drop n) n

/-- `chunks seq n`: the contiguous slices of length `n` (last may be shorter). -/
def chunks (seq : List Str) (n : Nat) : List (List Str) :=
  if n = 0 then [] else chunksGo (seq.length + 1) seq n

/-- The mitochondrial synonyms tuple of `normalize_chr`:
`("M", "MT", "MtDNA", "mt", "MTDNA")`. -/
def mitoSyns : List Str :=
  [ str "M", str "MT", str "MtDNA", str "mt", str "MTDNA" ]

/-- Model of `normalize_chr`: strip a case-insensitive "chr" prefix
(`c.lower().startswith("chr")`, then `c[3:]`), then map any listed
mitochondrial synonym to "M". -/
def normalize_chr (chrom : Str) : Str :=
  let c := if strHasPre (str "chr") (chrom.map Char.toLower)
           then chrom.drop 3 else chrom
  if c ∈ mitoSyns then str "M" else c

/-- Model of Python `allele_string.split("/")`. -/
def splitSlash : Str → List Str
  | [] => [[]]
  | c :: rest =>
    let r := splitSlash rest
    if c = '/' then [] :: r
    else
      match r with
      | [] => [[c]]
      | h :: t => (c :: h) :: t

/-- One entry of the `mappings` list of an Ensembl variation entry; each
field is optional (`m.get(...)` returns `None` when the key is absent). -/
structure Mapping where
  assembly_name : Option Str
  seq_region_name : Option Str
  start : Option Int
  allele_string : Option Str
deriving DecidableEq

/-- One variation entry of the response: whether the dict carries an
"error" key, and its `mappings` list (`entry.get("mappings", [])`). -/
structure VariationEntry where
  hasError : Bool
  mappings : List Mapping
deriving DecidableEq

/-- A (chromosome, position, ref allele, alt allele) tuple. -/
abbrev Coord : Type := Str × Int × Str × Str

/-- Lexicographic key of a coordinate tuple; Python compares tuples of
strings and ints lexicographically, component by component. -/
def coordKey (c : Coord) : Lex (Str × Lex (Int × Lex (Str × Str))) :=
  toLex (c.1, toLex (c.2.1, toLex (c.2.2.1, c.2.2.2)))

/-- Python tuple ordering (`sorted` order) on coordinate tuples. -/
def coordLe (a b : Coord) : Prop := coordKey a ≤ coordKey b

/-- Strict Python tuple ordering on coordinate tuples. -/
def coordLt (a b : Coord) : Prop := coordKey a < coordKey b

instance : DecidableRel coordLe := fun a b =>
  inferInstanceAs (Decidable (coordKey a ≤ coordKey b))

instance : DecidableRel coordLt := fun a b =>
  inferInstanceAs (Decidable (coordKey a < coordKey b))

theorem coordKey_injective : Function.Injective coordKey := by
  rintro ⟨c1, p1, r1, a1⟩ ⟨c2, p2, r2, a2⟩ h
  simp only [coordKey, toLex_inj, Prod.mk.injEq] at h
  simp [h.1, h.2.1, h.2.2.1, h.2.2.2]

instance : IsTotal Coord coordLe := ⟨fun a b => le_total (coordKey a) (coordKey b)⟩

instance : IsTrans Coord coordLe := ⟨fun _ _ _ h1 h2 => le_trans h1 h2⟩

instance : IsAntisymm Coord coordLe :=
  ⟨fun _ _ h1 h2 => coordKey_injective (le_antisymm h1 h2)⟩

instance : IsRefl Coord coordLe := ⟨fun a => le_refl (coordKey a)⟩

/-- The tuples contributed by one element of the `mappings` list in
`parse_grch38_mappings`: skip mappings not tagged GRCh38; skip mappings
whose chromosome, start or allele string is absent or falsy (Python
truthiness: `None`, empty string, or `0`); normalize the chromosome,
split the allele string on "/", and emit ref→alt per alternate token,
or a single ref→ref tuple when there are no alternates. -/
def mappingTuples (m : Mapping) : List Coord :=
  if m.assembly_name ≠ some (str "GRCh38") then []
  else
    match m.seq_region_name, m.start, m.allele_string with
    | some chrom, some pos, some als =>
      if chrom = [] ∨ pos = 0 ∨ als = [] then []
      else
        let c := normalize_chr chrom
        let alleles := splitSlash als
        let ref := alleles.headD []
        let alts := alleles.tail
        if alts.isEmpty then [(c, pos, ref, ref)]
        else alts.map (fun alt => (c, pos, ref, alt))
    | _, _, _ => []

/-- Model of `parse_grch38_mappings`: collect the tuples over the
`mappings` list in order, then `sorted(set(out))` — the sorted list of
the distinct tuples, modeled as insertion sort of the de-duplicated
collection (the canonical sorted duplicate-free list). -/
def parse_grch38_mappings (e : VariationEntry) : List Coord :=
  List.insertionSort coordLe ((e.mappings.flatMap mappingTuples).dedup)

/-- Decimal digits of a natural number (rendering helper for f-strings);
fuel-based structural recursion, `n + 1` fuel always suffices since the
value shrinks by a factor of ten per digit. -/
def natToStrGo : Nat → Nat → Str
  | 0, _ => []
  | fuel + 1, n =>
    if n < 10 then [Char.ofNat (48 + n)]
    else natToStrGo fuel (n / 10) ++ [Char.ofNat (48 + n % 10)]

/-- Model of Python `str(n)` for a natural number. -/
def natToStr (n : Nat) : Str := natToStrGo (n + 1) n

/-- Model of Python `str(i)` for an integer. -/
def intToStr (i : Int) : Str :=
  if i < 0 then '-' :: natToStr i.natAbs else natToStr i.natAbs

/-- Row of `rsid_to_coord.tsv`: `f"{rs_id}\t{chrom}\t{pos}\t{ref}\t{alt}"`. -/
def coordRow (rs : Str) (t : Coord) : Str :=
  rs ++ '\t' :: t.1 ++ '\t' :: intToStr t.2.1 ++ '\t' :: t.2.2.1 ++ '\t' :: t.2.2.2

/-- Row of `ids_to_extract.txt` (also the tuple rendering inside the
ambiguity report): `f"{chrom}:{pos}:{ref}:{alt}"`. -/
def idRow (t : Coord) : Str :=
  t.1 ++ ':' :: intToStr t.2.1 ++ ':' :: t.2.2.1 ++ ':' :: t.2.2.2

/-- Row of `rsid.range`: `f"{chrom}\t{pos}\t{pos}\t{rs_id}"`. -/
def rangeRow (rs : Str) (t : Coord) : Str :=
  t.1 ++ '\t' :: intToStr t.2.1 ++ '\t' :: intToStr t.2.1 ++ '\t' :: rs

/-- Row of `ambiguous_rsids.tsv`:
`f"{rs_id}\t{len(mappings)}\t{';'.join(...)}"`. -/
def ambigRow (rs : Str) (ms : List Coord) : Str :=
  rs ++ '\t' :: natToStr ms.length ++ '\t' :: List.intercalate [';'] (ms.map idRow)

/-- The accumulating run state of `main`: the six Python sets
`found, missing, id_rows, coord_rows, range_rows, ambig_rows`. -/
structure RunState where
  found : Finset Str
  missing : Finset Str
  id_rows : Finset Str
  coord_rows : Finset Str
  range_rows : Finset Str
  ambig_rows : Finset Str
deriving DecidableEq

/-- The empty initial run state (`set(), set(), ...`). -/
def initState : RunState := ⟨∅, ∅, ∅, ∅, ∅, ∅⟩

/-- The body of `for chrom, pos, ref, alt in mappings:` — add the three
row renderings and mark the identifier found. -/
def addRow (rs : Str) (st : RunState) (t : Coord) : RunState :=
  { st with
    coord_rows := insert (coordRow rs t) st.coord_rows
    id_rows := insert (idRow t) st.id_rows
    range_rows := insert (rangeRow rs t) st.range_rows
    found := insert rs st.found }

/-- A batch response body: the JSON object, mapping each identifier to
its variation entry when present (`data.get(rs_id)`). -/
abbrev Resp : Type := Str → Option VariationEntry

/-- The per-identifier block of `main`'s batch loop: an identifier whose
entry is absent or error-flagged, or whose parsed mapping list is empty,
goes to `missing` at once; otherwise each parsed tuple is folded in via
`addRow` and, when there are several, the ambiguity row is recorded.
(An entry that is an empty dict is falsy in Python and takes the
`missing` branch directly; in the model it has no error flag and no
mappings, so it reaches `missing` through the empty-parse branch —
the same outcome.) -/
def processRsid (data : Resp) (st : RunState) (rs : Str) : RunState :=
  match data rs with
  | none => { st with missing := insert rs st.missing }
  | some entry =>
    if entry.hasError then { st with missing := insert rs st.missing }
    else
      let mappings := parse_grch38_mappings entry
      if mappings.isEmpty then { st with missing := insert rs st.missing }
      else
        let st2 := mappings.foldl (addRow rs) st
        if 1 < mappings.length then
          { st2 with ambig_rows := insert (ambigRow rs mappings) st2.ambig_rows }
        else st2

/-- `for rs_id in batch_rsids:` over one batch. -/
def processBatch (data : Resp) (st : RunState) (b : List Str) : RunState :=
  b.foldl (processRsid data) st

/-- One outcome of a `session.post` attempt: a network-level
`requests.RequestException`, or an HTTP response with its status code,
optional parsed Retry-After header value, and parsed JSON body. -/
inductive NetOutcome (α : Type) where
  | netError : NetOutcome α
  | response (status : Nat) (retryAfter : Option ℚ) (body : α) : NetOutcome α

/-- How `post_variation_batch` can fail: a re-raised
`requests.RequestException`, or `resp.raise_for_status()` on a status. -/
inductive PostError where
  | netException : PostError
  | httpError (status : Nat) : PostError
deriving DecidableEq

/-- The pure part of `backoff_sleep`: the slept delay, in seconds.
`max(0.25, retry_after)` when a Retry-After value is given, else the
capped exponential `min(10.0, 0.25 * 2 ** attempt)`. -/
def backoff_delay (attempt : Nat) (retry_after : Option ℚ) : ℚ :=
  match retry_after with
  | some ra => max (1 / 4) ra
  | none => min 10 ((1 / 4) * 2 ^ attempt)

/-- The `while True` loop of `post_variation_batch`, run against the
prescribed outcome sequence of successive attempts; returns the result
(body or raised error) together with the list of backoff delays slept,
in order.  A 200 response returns its body; a 429/500/502/503/504
response retries after a backoff (honoring Retry-After) until `attempt`
reaches `max_retries`, then raises; for any other status the loop ends
with `resp.raise_for_status()`, which raises only when the status is in
[400, 600) — on a non-200 status outside that range (1xx, 2xx other
than 200, 3xx) it is a no-op and the `while True` loop silently issues
the next POST, with no sleep and no attempt increment; a network
exception retries like a transient status but never consults
Retry-After.  The outcome list is the environment: it covers every
attempt the loop makes (an exhausted list reads as a network
exception). -/
def postLoop {α : Type} (max_retries : Nat) (attempt : Nat) :
    List (NetOutcome α) → Except PostError α × List ℚ
  | [] => (Except.error PostError.netException, [])
  | o :: rest =>
    match o with
    | NetOutcome.netError =>
      if max_retries ≤ attempt then (Except.error PostError.netException, [])
      else
        let d := backoff_delay (attempt + 1) none
        let r := postLoop max_retries (attempt + 1) rest
        (r.1, d :: r.2)
    | NetOutcome.response s ra body =>
      if s = 200 then (Except.ok body, [])
      else
        if s = 429 ∨ s = 500 ∨ s = 502 ∨ s = 503 ∨ s = 504 then
          if max_retries ≤ attempt then (Except.error (PostError.httpError s), [])
          else
            let d := backoff_delay (attempt + 1) ra
            let r := postLoop max_retries (attempt + 1) rest
            (r.1, d :: r.2)
        else
          if 400 ≤ s ∧ s < 600 then (Except.error (PostError.httpError s), [])
          else postLoop max_retries attempt rest

/-- `post_variation_batch`: the retry loop started with `attempt = 0`. -/
def post_variation_batch {α : Type} (max_retries : Nat)
    (outcomes : List (NetOutcome α)) : Except PostError α × List ℚ :=
  postLoop max_retries 0 outcomes

/-- The batch loop of `main`: one `post_variation_batch` per batch (the
environment gives batch `i` its outcome sequence), aggregating into the
run state; a raised error aborts the whole run.  The politeness
`time.sleep(0.1)` between batches has no bearing on the state. -/
def runBatches (env : Nat → List (NetOutcome Resp)) (max_retries : Nat) :
    List (List Str) → Nat → RunState → Except PostError RunState
  | [], _, st => Except.ok st
  | b :: rest, i, st =>
    match (post_variation_batch max_retries (env i)).1 with
    | Except.error e => Except.error e
    | Except.ok data => runBatches env max_retries rest (i + 1) (processBatch data st b)

/-- `missing.update(set(rsids) - found)` after the batch loop. -/
def finalizeMissing (rsids : List Str) (st : RunState) : RunState :=
  { st with missing := st.missing ∪ (rsids.toFinset \ st.found) }

/-- The whole aggregation of `main` on given input lines: read and
normalize identifiers, batch them, process all batches, then finalize
the missing set.  (The `SystemExit` on an empty identifier list and the
file writes around this are modeled separately.) -/
def runMain (env : Nat → List (NetOutcome Resp)) (lines : List Str)
    (batch max_retries : Nat) : Except PostError RunState :=
  match runBatches env max_retries (chunks (read_rsids lines) batch) 0 initState with
  | Except.error e => Except.error e
  | Except.ok st => Except.ok (finalizeMissing (read_rsids lines) st)

/-- The sorted line list a row set is written as:
`for row in sorted(rows): f.write(row + "\n")`. -/
def writeLinesList (rows : Finset Str) : List Str :=
  Finset.sort (fun a b => a ≤ b) rows

/-- The byte content of one output file: each sorted row, newline-terminated. -/
def writeLines (rows : Finset Str) : Str :=
  (writeLinesList rows).flatMap (fun r => r ++ [ '\n' ])

/-- The five data output files of a run, in the order
`rsid_to_coord.tsv, ids_to_extract.txt, rsid.range, missing_rsids.txt,
ambiguous_rsids.tsv`. -/
def outputFiles (st : RunState) : List Str :=
  [ writeLines st.coord_rows, writeLines st.id_rows, writeLines st.range_rows,
    writeLines st.missing, writeLines st.ambig_rows ]

-- sanity examples (kept as anonymous examples, they are not claim theorems)
example : normalize_chr (str "chr7") = str "7" := by decide
example : normalize_chr (str "MT") = str "M" := by decide
example : splitSlash (str "A/G/T") = [ str "A", str "G", str "T" ] := by decide
example :
    parse_grch38_mappings
      ⟨false, [⟨some (str "GRCh38"), some (str "chr7"), some 117559590,
                some (str "A/G/T")⟩]⟩ =
    [ (str "7", 117559590, str "A", str "G"),
      (str "7", 117559590, str "A", str "T") ] := by decide

instance {ε α : Type} [DecidableEq ε] [DecidableEq α] : DecidableEq (Except ε α) := fun a b =>
  match a, b with
  | Except.error e, Except.error f =>
    decidable_of_iff (e = f) (by simp)
  | Except.error _, Except.ok _ => isFalse (by simp)
  | Except.ok _, Except.error _ => isFalse (by simp)
  | Except.ok x, Except.ok y =>
    decidable_of_iff (x = y) (by simp)

/-! ### Retry-loop trace lemmas -/

/-- Membership in the transient (retried) status group. -/
def transientStatus (s : Nat) : Prop :=
  s = 429 ∨ s = 500 ∨ s = 502 ∨ s = 503 ∨ s = 504

theorem transient_ne_200 {s : Nat} (hs : transientStatus s) : s ≠ 200 := by
  rcases hs with h | h | h | h | h <;> omega

theorem range_map_shift (attempt k : Nat) (ra : Option ℚ) :
    (List.range (k + 1)).map (fun i => backoff_delay (attempt + i + 1) ra) =
      backoff_delay (attempt + 1) ra ::
        (List.range k).map (fun i => backoff_delay (attempt + 1 + i + 1) ra) := by
  simp only [List.range_succ_eq_map, List.map_cons, List.map_map]
  refine congrArg₂ _ (by simp) ?_
  refine congrArg (fun g => List.map g (List.range k)) ?_
  funext i
  simp only [Function.comp]
  exact congrArg (fun a => backoff_delay a ra) (by omega)

/-- Transient-status failures within the retry budget: each is slept
through with its backoff delay, and the final 200 returns the body. -/
theorem postLoop_status_ok {α : Type} (mr : Nat) {s : Nat} (hs : transientStatus s)
    (ra : Option ℚ) (r : α) :
    ∀ (k attempt : Nat), attempt + k ≤ mr →
      postLoop mr attempt
        (List.replicate k (NetOutcome.response s ra r) ++ [NetOutcome.response 200 none r]) =
      (Except.ok r, (List.range k).map (fun i => backoff_delay (attempt + i + 1) ra)) := by
  intro k
  induction k with
  | zero => intro attempt _; simp [postLoop]
  | succ k ih =>
    intro attempt hle
    have h200 : s ≠ 200 := transient_ne_200 hs
    have hlt : ¬ mr ≤ attempt := by omega
    rw [List.replicate_succ, List.cons_append]
    rw [show postLoop mr attempt
          (NetOutcome.response s ra r ::
            (List.replicate k (NetOutcome.response s ra r) ++ [NetOutcome.response 200 none r])) =
        ((postLoop mr (attempt + 1)
            (List.replicate k (NetOutcome.response s ra r) ++ [NetOutcome.response 200 none r])).1,
          backoff_delay (attempt + 1) ra ::
          (postLoop mr (attempt + 1)
            (List.replicate k (NetOutcome.response s ra r) ++ [NetOutcome.response 200 none r])).2)
      from by simp [postLoop, h200, hs.imp id id, hlt]]
    rw [ih (attempt + 1) (by omega)]
    dsimp only
    rw [range_map_shift]

/-- Transient-status failures exhausting the retry budget: when the
attempt counter has reached the ceiling, the next failure raises
`raise_for_status` at once. -/
theorem postLoop_status_fail {α : Type} (mr : Nat) {s : Nat} (hs : transientStatus s)
    (ra : Option ℚ) (r : α) (rest : List (NetOutcome α)) :
    ∀ (k attempt : Nat), attempt + k = mr →
      postLoop mr attempt
        (List.replicate (k + 1) (NetOutcome.response s ra r) ++ rest) =
      (Except.error (PostError.httpError s),
        (List.range k).map (fun i => backoff_delay (attempt + i + 1) ra)) := by
  intro k
  induction k with
  | zero =>
    intro attempt hk
    have h200 : s ≠ 200 := transient_ne_200 hs
    simp [postLoop, h200, hs.imp id id, (by omega : mr ≤ attempt)]
  | succ k ih =>
    intro attempt hk
    have h200 : s ≠ 200 := transient_ne_200 hs
    have hlt : ¬ mr ≤ attempt := by omega
    rw [List.replicate_succ, List.cons_append]
    rw [show postLoop mr attempt
          (NetOutcome.response s ra r ::
            (List.replicate (k + 1) (NetOutcome.response s ra r) ++ rest)) =
        ((postLoop mr (attempt + 1)
            (List.replicate (k + 1) (NetOutcome.response s ra r) ++ rest)).1,
          backoff_delay (attempt + 1) ra ::
          (postLoop mr (attempt + 1)
            (List.replicate (k + 1) (NetOutcome.response s ra r) ++ rest)).2)
      from by simp [postLoop, h200, hs.imp id id, hlt]]
    rw [ih (attempt + 1) (by omega)]
    dsimp only
    rw [range_map_shift]

/-- Network-exception failures within the retry budget. -/
theorem postLoop_net_ok {α : Type} (mr : Nat) (r : α) :
    ∀ (k attempt : Nat), attempt + k ≤ mr →
      postLoop mr attempt
        (List.replicate k (NetOutcome.netError) ++ [NetOutcome.response 200 none r]) =
      (Except.ok r, (List.range k).map (fun i => backoff_delay (attempt + i + 1) none)) := by
  intro k
  induction k with
  | zero => intro attempt _; simp [postLoop]
  | succ k ih =>
    intro attempt hle
    have hlt : ¬ mr ≤ attempt := by omega
    rw [List.replicate_succ, List.cons_append]
    rw [show postLoop mr attempt
          (NetOutcome.netError ::
            (List.replicate k (NetOutcome.netError) ++ [NetOutcome.response 200 none r])) =
        ((postLoop mr (attempt + 1)
            (List.replicate k (NetOutcome.netError) ++ [NetOutcome.response 200 none r])).1,
          backoff_delay (attempt + 1) none ::
          (postLoop mr (attempt + 1)
            (List.replicate k (NetOutcome.netError) ++ [NetOutcome.response 200 none r])).2)
      from by simp [postLoop, hlt]]
    rw [ih (attempt + 1) (by omega)]
    dsimp only
    rw [range_map_shift]

/-- Network-exception failures exhausting the retry budget re-raise the
exception. -/
theorem postLoop_net_fail {α : Type} (mr : Nat) (rest : List (NetOutcome α)) :
    ∀ (k attempt : Nat), attempt + k = mr →
      postLoop mr attempt (List.replicate (k + 1) (NetOutcome.netError) ++ rest) =
      (Except.error PostError.netException,
        (List.range k).map (fun i => backoff_delay (attempt + i + 1) none)) := by
  intro k
  induction k with
  | zero =>
    intro attempt hk
    simp [postLoop, (by omega : mr ≤ attempt)]
  | succ k ih =>
    intro attempt hk
    have hlt : ¬ mr ≤ attempt := by omega
    rw [List.replicate_succ, List.cons_append]
    rw [show postLoop mr attempt
          (NetOutcome.netError :: (List.replicate (k + 1) (NetOutcome.netError) ++ rest)) =
        ((postLoop mr (attempt + 1)
            (List.replicate (k + 1) (NetOutcome.netError) ++ rest)).1,
          backoff_delay (attempt + 1) none ::
          (postLoop mr (attempt + 1)
            (List.replicate (k + 1) (NetOutcome.netError) ++ rest)).2)
      from by simp [postLoop, hlt]]
    rw [ih (attempt + 1) (by omega)]
    dsimp only
    rw [range_map_shift]

instance : DecidablePred transientStatus := fun s => by
  unfold transientStatus
  infer_instance

/-- The error raised by a run, when it raised one. -/
def runErr : Except PostError RunState → Option PostError
  | Except.error e => some e
  | Except.ok _ => none

/-! ### Concrete fixtures -/

/-- A response entry with a single GRCh38 mapping. -/
def entFix : VariationEntry :=
  ⟨false, [⟨some (str "GRCh38"), some (str "chr7"), some 7, some (str "A/G")⟩]⟩

/-- A response body resolving every identifier to `entFix`. -/
def respFix : Resp := fun _ => some entFix

/-- Environment: every batch fails transiently five times, then succeeds. -/
def envReset : Nat → List (NetOutcome Resp) := fun _ =>
  List.replicate 5 (NetOutcome.response 503 none respFix) ++
    [ NetOutcome.response 200 none respFix ]

/-- Environment: every batch fails transiently six times in a row. -/
def envAbort : Nat → List (NetOutcome Resp) := fun _ =>
  List.replicate 6 (NetOutcome.response 503 none respFix)

/-! ### Claims C2, C3, C7 — the Resilient Query Client -/

/-- C2 counterexample: a 204 response — not 200, not transient, not a
network failure — does not make the client fail: `raise_for_status()`
is a no-op below status 400, so the loop silently re-POSTs.  With a 204
followed by a 200 the call returns the 200 body (no raise, no sleep);
with a 204 followed by a 404 it raises the 404 — the outcome depends on
responses after the first, so the client looped. -/
theorem claim_C2_counterexample :
    post_variation_batch 5
      [ NetOutcome.response 204 none (), NetOutcome.response 200 none () ] =
      (Except.ok (), []) ∧
    post_variation_batch 5
      [ NetOutcome.response 204 none (), NetOutcome.response 404 none () ] =
      (Except.error (PostError.httpError 404), []) := by
  refine ⟨by decide, by decide⟩

/-- C2 amended: a response whose status is in [400, 600) but not in the
transient group {429, 500, 502, 503, 504} makes the client raise
`raise_for_status` to the caller at once — no retry, no backoff sleep,
no further outcome consumed, at any point of the retry loop.  For a
non-200 status outside [400, 600) (1xx, 2xx other than 200, 3xx),
`raise_for_status` is a no-op and the loop silently re-issues the
request immediately: no raise, no sleep, and no attempt increment. -/
theorem claim_C2_amended :
    (∀ (α : Type) (mr attempt s : Nat) (ra : Option ℚ) (r : α)
      (rest : List (NetOutcome α)), 400 ≤ s → s < 600 → ¬ transientStatus s →
      postLoop mr attempt (NetOutcome.response s ra r :: rest) =
        (Except.error (PostError.httpError s), [])) ∧
    (∀ (α : Type) (mr s : Nat) (ra : Option ℚ) (r : α)
      (rest : List (NetOutcome α)), 400 ≤ s → s < 600 → ¬ transientStatus s →
      post_variation_batch mr (NetOutcome.response s ra r :: rest) =
        (Except.error (PostError.httpError s), [])) ∧
    (∀ (α : Type) (mr attempt s : Nat) (ra : Option ℚ) (r : α)
      (rest : List (NetOutcome α)), s ≠ 200 → ¬ transientStatus s →
      ¬ (400 ≤ s ∧ s < 600) →
      postLoop mr attempt (NetOutcome.response s ra r :: rest) =
        postLoop mr attempt rest) := by
  refine ⟨?_, ?_, ?_⟩
  · intro α mr attempt s ra r rest h400 h600 htrans
    have htrans2 : ¬ (s = 429 ∨ s = 500 ∨ s = 502 ∨ s = 503 ∨ s = 504) := htrans
    have h200 : s ≠ 200 := by omega
    simp [postLoop, h200, htrans2, h400, h600]
  · intro α mr s ra r rest h400 h600 htrans
    have htrans2 : ¬ (s = 429 ∨ s = 500 ∨ s = 502 ∨ s = 503 ∨ s = 504) := htrans
    have h200 : s ≠ 200 := by omega
    simp [post_variation_batch, postLoop, h200, htrans2, h400, h600]
  · intro α mr attempt s ra r rest h200 htrans hrange
    have htrans2 : ¬ (s = 429 ∨ s = 500 ∨ s = 502 ∨ s = 503 ∨ s = 504) := htrans
    simp [postLoop, h200, htrans2, hrange]

theorem claim_C2_amended_witness :
    post_variation_batch 5 [ NetOutcome.response 404 none () ] =
      (Except.error (PostError.httpError 404), []) ∧
    postLoop 5 0
      [ NetOutcome.response 204 none (), NetOutcome.response 200 none () ] =
      postLoop 5 0 [ NetOutcome.response 200 none () ] :=
  ⟨claim_C2_amended.2.1 Unit 5 404 none () [] (by decide) (by decide) (by decide),
    claim_C2_amended.2.2 Unit 5 0 204 none () [ NetOutcome.response 200 none () ]
      (by decide) (by decide) (by decide)⟩

/-- C3 counterexample: with no Retry-After signal, the first retry of a
batch sleeps 0.5 s, not the 0.25 s the claim states — the attempt
counter is incremented before `backoff_sleep(attempt)` is called, so the
first no-signal sleep evaluates `min(10.0, 0.25 * 2 ** 1)`. -/
theorem claim_C3_counterexample :
    (post_variation_batch 5
      [ NetOutcome.response 500 none (), NetOutcome.response 200 none () ]).2 ≠
      [ (1 / 4 : ℚ) ] ∧
    (post_variation_batch 5
      [ NetOutcome.response 500 none (), NetOutcome.response 200 none () ]).2 =
      [ (1 / 2 : ℚ) ] := by
  have h : (post_variation_batch 5
      [ NetOutcome.response 500 none (), NetOutcome.response 200 none () ]).2 =
      [ (1 / 2 : ℚ) ] := by
    norm_num [post_variation_batch, postLoop, backoff_delay]
  refine ⟨?_, h⟩
  rw [h]
  intro hc
  have : (1 / 2 : ℚ) = 1 / 4 := by injection hc
  norm_num at this

/-- C3 amended: a retry whose failing response carries a Retry-After
value N sleeps `max(0.25, N)`; otherwise retry number i (counting from
1) sleeps `min(10.0, 0.25 * 2 ** i)` — a capped exponential schedule
whose first no-signal sleep is 0.5 s (not 0.25 s), doubling per attempt
with ceiling 10 s (reached from the sixth retry on). -/
theorem claim_C3_amended :
    (∀ (mr k : Nat) (ra : ℚ), k ≤ mr →
      (post_variation_batch mr
        (List.replicate k (NetOutcome.response 429 (some ra) ()) ++
          [ NetOutcome.response 200 none () ])).2 =
      List.replicate k (max (1 / 4) ra)) ∧
    (∀ (mr k : Nat), k ≤ mr →
      (post_variation_batch mr
        (List.replicate k (NetOutcome.response 500 none ()) ++
          [ NetOutcome.response 200 none () ])).2 =
      (List.range k).map (fun i => min 10 ((1 / 4) * 2 ^ (i + 1)))) ∧
    (∀ (mr : Nat), 1 ≤ mr →
      (post_variation_batch mr
        [ NetOutcome.response 500 none (), NetOutcome.response 200 none () ]).2 =
      [ (1 / 2 : ℚ) ]) ∧
    (∀ (a : Nat), 6 ≤ a → backoff_delay a none = 10) := by
  refine ⟨?_, ?_, ?_, ?_⟩
  · intro mr k ra hk
    rw [post_variation_batch,
      postLoop_status_ok mr (Or.inl rfl) (some ra) () k 0 (by omega)]
    simp [backoff_delay, List.map_const']
  · intro mr k hk
    rw [post_variation_batch,
      postLoop_status_ok mr (Or.inr (Or.inl rfl)) none () k 0 (by omega)]
    simp [backoff_delay]
  · intro mr hmr
    have h := postLoop_status_ok mr (Or.inr (Or.inl rfl)) none () 1 0 (by omega)
    simp only [List.replicate_succ, List.replicate_zero, List.cons_append,
      List.nil_append] at h
    rw [post_variation_batch, h]
    rw [show List.range 1 = [0] from rfl]
    simp only [List.map_cons, List.map_nil]
    norm_num [backoff_delay]
  · intro a ha
    have h64 : (64 : ℚ) ≤ 2 ^ a := by
      calc (64 : ℚ) = 2 ^ 6 := by norm_num
      _ ≤ 2 ^ a := by
        exact pow_le_pow_right₀ (by norm_num) ha
    have h10 : (10 : ℚ) ≤ 4⁻¹ * 2 ^ a := by nlinarith
    simp [backoff_delay, min_eq_left h10]

theorem claim_C3_amended_witness :
    (post_variation_batch 5
      (List.replicate 2 (NetOutcome.response 429 (some 3) ()) ++
        [ NetOutcome.response 200 none () ])).2 =
      List.replicate 2 (max (1 / 4) 3) ∧
    (post_variation_batch 5
      (List.replicate 2 (NetOutcome.response 500 none ()) ++
        [ NetOutcome.response 200 none () ])).2 =
      (List.range 2).map (fun i => min 10 ((1 / 4) * 2 ^ (i + 1))) ∧
    (post_variation_batch 5
      [ NetOutcome.response 500 none (), NetOutcome.response 200 none () ]).2 =
      [ (1 / 2 : ℚ) ] ∧
    backoff_delay 6 none = 10 :=
  ⟨claim_C3_amended.1 5 2 3 (by decide), claim_C3_amended.2.1 5 2 (by decide),
    claim_C3_amended.2.2.1 5 (by decide), claim_C3_amended.2.2.2 6 (by decide)⟩

/-- C7: a transient outcome (network failure or status in
{429, 500, 502, 503, 504}) is retried with backoff while the
per-batch attempt counter stays below the ceiling; with ceiling `mr`,
`mr` consecutive transient failures are still retried (a following 200
succeeds), and the failure after that surfaces the underlying error to
the caller (after exactly `mr` backoff sleeps), never consuming further
outcomes.  The counter starts at 0 for each batch, so a run whose every
batch needs 5 retries under ceiling 5 completes, while 6 consecutive
transient failures in any one batch abort the whole run with the
underlying error. -/
theorem claim_C7 :
    (∀ (α : Type) (mr : Nat) (ra : Option ℚ) (r : α) (rest : List (NetOutcome α))
      (s : Nat), transientStatus s →
      post_variation_batch mr
        (List.replicate (mr + 1) (NetOutcome.response s ra r) ++ rest) =
      (Except.error (PostError.httpError s),
        (List.range mr).map (fun i => backoff_delay (i + 1) ra))) ∧
    (∀ (α : Type) (mr : Nat) (rest : List (NetOutcome α)),
      post_variation_batch mr (List.replicate (mr + 1) NetOutcome.netError ++ rest) =
      (Except.error PostError.netException,
        (List.range mr).map (fun i => backoff_delay (i + 1) none))) ∧
    (∀ (α : Type) (mr k : Nat) (r : α) (s : Nat), transientStatus s → k ≤ mr →
      (post_variation_batch mr
        (List.replicate k (NetOutcome.response s none r) ++
          [ NetOutcome.response 200 none r ])).1 = Except.ok r) ∧
    runErr (runMain envReset [ str "1", str "2" ] 1 5) = none ∧
    runMain envAbort [ str "1" ] 200 5 = Except.error (PostError.httpError 503) := by
  refine ⟨?_, ?_, ?_, by decide, by decide⟩
  · intro α mr ra r rest s hs
    have h := postLoop_status_fail mr hs ra r rest mr 0 (by omega)
    simpa [post_variation_batch] using h
  · intro α mr rest
    have h := postLoop_net_fail mr rest mr 0 (by omega)
    simpa [post_variation_batch] using h
  · intro α mr k r s hs hk
    rw [post_variation_batch, postLoop_status_ok mr hs none r k 0 (by omega)]

theorem claim_C7_witness :
    post_variation_batch 5
      (List.replicate (5 + 1) (NetOutcome.response 503 none ()) ++ []) =
      (Except.error (PostError.httpError 503),
        (List.range 5).map (fun i => backoff_delay (i + 1) none)) ∧
    (post_variation_batch 5
      (List.replicate 3 (NetOutcome.response 429 none ()) ++
        [ NetOutcome.response 200 none () ])).1 = Except.ok () :=
  ⟨claim_C7.1 Unit 5 none () [] 503 (by decide),
    claim_C7.2.2.1 Unit 5 3 () 429 (by decide) (by decide)⟩

/-! ### Mapping Extractor lemmas -/

/-- Membership in the parsed result is membership in some mapping's
contribution. -/
theorem parse_mem {e : VariationEntry} {t : Coord} :
    t ∈ parse_grch38_mappings e ↔ ∃ m ∈ e.mappings, t ∈ mappingTuples m := by
  unfold parse_grch38_mappings
  rw [(List.perm_insertionSort coordLe _).mem_iff, List.mem_dedup, List.mem_flatMap]

/-- Any emitted tuple comes from a kept mapping whose three data fields
are present and truthy; its chromosome is the normalized raw chromosome
and its position is the raw position. -/
theorem mappingTuples_spec {m : Mapping} {t : Coord} (ht : t ∈ mappingTuples m) :
    m.assembly_name = some (str "GRCh38") ∧
    ∃ chrom pos als, m.seq_region_name = some chrom ∧ m.start = some pos ∧
      m.allele_string = some als ∧ chrom ≠ [] ∧ pos ≠ 0 ∧ als ≠ [] ∧
      t.1 = normalize_chr chrom ∧ t.2.1 = pos := by
  rcases m with ⟨asm, sr, stt, al⟩
  unfold mappingTuples at ht
  by_cases hasm : asm = some (str "GRCh38")
  case neg =>
    rw [if_pos (by simpa using hasm)] at ht
    simp at ht
  case pos =>
    subst hasm
    rw [if_neg (by simp)] at ht
    rcases sr with _ | chrom
    · rcases stt with _ | pos <;> rcases al with _ | als <;> simp at ht
    · rcases stt with _ | pos
      · rcases al with _ | als <;> simp at ht
      · rcases al with _ | als
        · simp at ht
        · dsimp only at ht
          by_cases hguard : chrom = [] ∨ pos = 0 ∨ als = []
          · rw [if_pos hguard] at ht
            simp at ht
          · rw [if_neg hguard] at ht
            push_neg at hguard
            obtain ⟨hc, hp, ha⟩ := hguard
            refine ⟨rfl, chrom, pos, als, rfl, rfl, rfl, hc, hp, ha, ?_⟩
            by_cases he : (splitSlash als).tail.isEmpty
            · rw [if_pos he] at ht
              simp only [List.mem_singleton] at ht
              subst ht
              exact ⟨rfl, rfl⟩
            · rw [if_neg he] at ht
              simp only [List.mem_map] at ht
              obtain ⟨alt, _, hteq⟩ := ht
              subst hteq
              exact ⟨rfl, rfl⟩

/-- The closed chromosome set {1..22, X, Y, M} named by the spec. -/
def canonicalChromSet : List Str :=
  [ str "1", str "2", str "3", str "4", str "5", str "6", str "7", str "8",
    str "9", str "10", str "11", str "12", str "13", str "14", str "15",
    str "16", str "17", str "18", str "19", str "20", str "21", str "22",
    str "X", str "Y", str "M" ]

/-- A GRCh38 mapping on an alternate-contig scaffold name. -/
def entScaffold : VariationEntry :=
  ⟨false, [⟨some (str "GRCh38"), some (str "GL000220.1"), some 5, some (str "A/G")⟩]⟩

/-- C4 counterexample: a mapping whose chromosome field is a scaffold
name passes through `normalize_chr` unchanged and is emitted as is, so
the produced chromosome is not drawn from the closed set
{1..22, X, Y, M}. -/
theorem claim_C4_counterexample :
    parse_grch38_mappings entScaffold =
      [ (str "GL000220.1", 5, str "A", str "G") ] ∧
    normalize_chr (str "GL000220.1") = str "GL000220.1" ∧
    str "GL000220.1" ∉ canonicalChromSet := by
  refine ⟨by decide, by decide, by decide⟩

/-- C4 amended: every emitted chromosome is `normalize_chr` of the raw
chromosome field — the "chr" prefix is stripped case-insensitively and
the mitochondrial synonyms ("M", "MT", "MtDNA", "mt", "MTDNA") map to
"M" (in particular "MT", "chrM", "mt" all canonicalize to "M") — but any
other name passes through unchanged, so the emitted set is not confined
to {1..22, X, Y, M}. -/
theorem claim_C4_amended :
    (∀ (e : VariationEntry) (t : Coord), t ∈ parse_grch38_mappings e →
      ∃ m ∈ e.mappings, ∃ raw, m.seq_region_name = some raw ∧
        t.1 = normalize_chr raw) ∧
    normalize_chr (str "MT") = str "M" ∧
    normalize_chr (str "chrM") = str "M" ∧
    normalize_chr (str "mt") = str "M" ∧
    (∀ c : Str, strHasPre (str "chr") (c.map Char.toLower) = false →
      c ∉ mitoSyns → normalize_chr c = c) := by
  refine ⟨?_, by decide, by decide, by decide, ?_⟩
  · intro e t ht
    obtain ⟨m, hm, hmt⟩ := parse_mem.mp ht
    obtain ⟨-, chrom, pos, als, hsr, -, -, -, -, -, hchr, -⟩ := mappingTuples_spec hmt
    exact ⟨m, hm, chrom, hsr, hchr⟩
  · intro c h1 h2
    unfold normalize_chr
    rw [h1]
    simp [h2]

theorem claim_C4_amended_witness :
    (∃ m ∈ entScaffold.mappings, ∃ raw, m.seq_region_name = some raw ∧
      (str "GL000220.1", (5 : Int), str "A", str "G").1 = normalize_chr raw) ∧
    normalize_chr (str "Z") = str "Z" :=
  ⟨claim_C4_amended.1 entScaffold (str "GL000220.1", 5, str "A", str "G") (by decide),
    claim_C4_amended.2.2.2.2 (str "Z") (by decide) (by decide)⟩

/-- A mapping with no start position contributes nothing. -/
theorem mappingTuples_start_none (m : Mapping) (h : m.start = none) :
    mappingTuples m = [] := by
  rcases m with ⟨asm, sr, stt, al⟩
  cases h
  unfold mappingTuples
  rcases sr with _ | chrom <;> rcases al with _ | als <;> split <;> simp

/-- A mapping whose start position is 0 (falsy) contributes nothing. -/
theorem mappingTuples_start_zero (m : Mapping) (h : m.start = some 0) :
    mappingTuples m = [] := by
  rcases m with ⟨asm, sr, stt, al⟩
  cases h
  unfold mappingTuples
  rcases sr with _ | chrom <;> rcases al with _ | als <;> split <;> simp

/-- A mapping with no chromosome contributes nothing. -/
theorem mappingTuples_chrom_none (m : Mapping) (h : m.seq_region_name = none) :
    mappingTuples m = [] := by
  rcases m with ⟨asm, sr, stt, al⟩
  cases h
  unfold mappingTuples
  rcases stt with _ | pos <;> rcases al with _ | als <;> split <;> simp

/-- A mapping whose chromosome is the empty string contributes nothing. -/
theorem mappingTuples_chrom_empty (m : Mapping) (h : m.seq_region_name = some []) :
    mappingTuples m = [] := by
  rcases m with ⟨asm, sr, stt, al⟩
  cases h
  unfold mappingTuples
  rcases stt with _ | pos <;> rcases al with _ | als <;> split <;> simp

/-- A mapping with no allele string contributes nothing. -/
theorem mappingTuples_als_none (m : Mapping) (h : m.allele_string = none) :
    mappingTuples m = [] := by
  rcases m with ⟨asm, sr, stt, al⟩
  cases h
  unfold mappingTuples
  rcases sr with _ | chrom <;> rcases stt with _ | pos <;> split <;> simp

/-- A mapping whose allele string is empty contributes nothing. -/
theorem mappingTuples_als_empty (m : Mapping) (h : m.allele_string = some []) :
    mappingTuples m = [] := by
  rcases m with ⟨asm, sr, stt, al⟩
  cases h
  unfold mappingTuples
  rcases sr with _ | chrom <;> rcases stt with _ | pos <;> split <;> simp

/-- C9: presence of chromosome, position and allele descriptor is tested
by Python truthiness, so a mapping whose start is 0, or whose chromosome
or allele string is the empty string, is skipped exactly as if the field
were absent, and no emitted tuple ever carries position 0. -/
theorem claim_C9 :
    (∀ (e : VariationEntry) (t : Coord), t ∈ parse_grch38_mappings e → t.2.1 ≠ 0) ∧
    (∀ m : Mapping, m.start = some 0 → mappingTuples m = []) ∧
    (∀ m : Mapping, m.seq_region_name = some [] → mappingTuples m = []) ∧
    (∀ m : Mapping, m.allele_string = some [] → mappingTuples m = []) ∧
    (∀ m : Mapping,
      mappingTuples { m with start := some 0 } =
        mappingTuples { m with start := none }) ∧
    (∀ m : Mapping,
      mappingTuples { m with seq_region_name := some [] } =
        mappingTuples { m with seq_region_name := none }) ∧
    (∀ m : Mapping,
      mappingTuples { m with allele_string := some [] } =
        mappingTuples { m with allele_string := none }) := by
  refine ⟨?_, mappingTuples_start_zero, mappingTuples_chrom_empty,
    mappingTuples_als_empty, ?_, ?_, ?_⟩
  · intro e t ht
    obtain ⟨m, _, hmt⟩ := parse_mem.mp ht
    obtain ⟨-, chrom, pos, als, -, -, -, -, hp, -, -, hpos⟩ := mappingTuples_spec hmt
    rw [hpos]
    exact hp
  · intro m
    rw [mappingTuples_start_zero _ rfl, mappingTuples_start_none _ rfl]
  · intro m
    rw [mappingTuples_chrom_empty _ rfl, mappingTuples_chrom_none _ rfl]
  · intro m
    rw [mappingTuples_als_empty _ rfl, mappingTuples_als_none _ rfl]

theorem claim_C9_witness :
    (str "7", (7 : Int), str "A", str "G").2.1 ≠ 0 ∧
    mappingTuples ⟨some (str "GRCh38"), some (str "7"), some 0, some (str "A/G")⟩ = [] :=
  ⟨claim_C9.1 entFix (str "7", 7, str "A", str "G") (by decide),
    claim_C9.2.1 ⟨some (str "GRCh38"), some (str "7"), some 0, some (str "A/G")⟩ rfl⟩

/-- The parsed result of any entry is strictly sorted in Python tuple
order — in particular duplicate-free. -/
theorem parse_pairwise_lt (e : VariationEntry) :
    (parse_grch38_mappings e).Pairwise coordLt := by
  have hs : List.Pairwise coordLe (parse_grch38_mappings e) :=
    List.sorted_insertionSort coordLe _
  have hn : (parse_grch38_mappings e).Nodup := by
    unfold parse_grch38_mappings
    exact ((List.perm_insertionSort coordLe _).nodup_iff).mpr (List.nodup_dedup _)
  refine (hs.and hn).imp ?_
  rintro a b ⟨hle, hne⟩
  exact lt_of_le_of_ne hle (fun hk => hne (coordKey_injective hk))

/-- Multi-allelic expansion of one kept mapping: one tuple per alternate
token, in allele-string order. -/
theorem mappingTuples_multi (chrom : Str) (pos : Int) (als ref : Str)
    (alts : List Str) (hc : chrom ≠ []) (hp : pos ≠ 0) (ha : als ≠ [])
    (hsplit : splitSlash als = ref :: alts) (halts : alts ≠ []) :
    mappingTuples ⟨some (str "GRCh38"), some chrom, some pos, some als⟩ =
      alts.map (fun alt => (normalize_chr chrom, pos, ref, alt)) := by
  unfold mappingTuples
  rw [if_neg (by simp)]
  dsimp only
  rw [if_neg (by simp [hc, hp, ha])]
  rw [hsplit]
  dsimp only [List.headD, List.tail]
  rw [if_neg (by simp [halts])]

/-- Single-allele placeholder: a lone allele token yields one ref→ref
tuple, not an empty result. -/
theorem mappingTuples_single (chrom : Str) (pos : Int) (als ref : Str)
    (hc : chrom ≠ []) (hp : pos ≠ 0) (ha : als ≠ [])
    (hsplit : splitSlash als = [ref]) :
    mappingTuples ⟨some (str "GRCh38"), some chrom, some pos, some als⟩ =
      [ (normalize_chr chrom, pos, ref, ref) ] := by
  unfold mappingTuples
  rw [if_neg (by simp)]
  dsimp only
  rw [if_neg (by simp [hc, hp, ha])]
  rw [hsplit]
  rfl

/-- The `rs1 → A/G/T at chr7:117559590` fixture entry. -/
def entTriple : VariationEntry :=
  ⟨false, [⟨some (str "GRCh38"), some (str "chr7"), some 117559590,
    some (str "A/G/T")⟩]⟩

/-- A response resolving exactly `rs1`, to `entTriple`. -/
def respTriple : Resp := fun rs => if rs = str "rs1" then some entTriple else none

/-- C5: each kept mapping expands its allele descriptor REF/ALT1[/...]
into one tuple per alternate token (a descriptor with no alternates
yields the single ref→ref placeholder), and the returned list is
strictly sorted in tuple order, hence deduplicated.  The descriptor
"A/G/T" at "chr7":117559590 yields exactly (7,117559590,A,G) and
(7,117559590,A,T), and `rs1` is recorded ambiguous with count 2. -/
theorem claim_C5 :
    (∀ e : VariationEntry, (parse_grch38_mappings e).Pairwise coordLt) ∧
    (∀ (chrom : Str) (pos : Int) (als ref : Str) (alts : List Str),
      chrom ≠ [] → pos ≠ 0 → als ≠ [] → splitSlash als = ref :: alts →
      alts ≠ [] →
      mappingTuples ⟨some (str "GRCh38"), some chrom, some pos, some als⟩ =
        alts.map (fun alt => (normalize_chr chrom, pos, ref, alt))) ∧
    (∀ (chrom : Str) (pos : Int) (als ref : Str),
      chrom ≠ [] → pos ≠ 0 → als ≠ [] → splitSlash als = [ref] →
      mappingTuples ⟨some (str "GRCh38"), some chrom, some pos, some als⟩ =
        [ (normalize_chr chrom, pos, ref, ref) ]) ∧
    parse_grch38_mappings entTriple =
      [ (str "7", 117559590, str "A", str "G"),
        (str "7", 117559590, str "A", str "T") ] ∧
    ambigRow (str "rs1") (parse_grch38_mappings entTriple) ∈
      (processRsid respTriple initState (str "rs1")).ambig_rows ∧
    ambigRow (str "rs1") (parse_grch38_mappings entTriple) =
      str "rs1\t2\t7:117559590:A:G;7:117559590:A:T" := by
  refine ⟨parse_pairwise_lt,
    fun chrom pos als ref alts hc hp ha hs hn =>
      mappingTuples_multi chrom pos als ref alts hc hp ha hs hn,
    fun chrom pos als ref hc hp ha hs =>
      mappingTuples_single chrom pos als ref hc hp ha hs,
    by decide, by decide, by decide⟩

theorem claim_C5_witness :
    (parse_grch38_mappings entTriple).Pairwise coordLt ∧
    mappingTuples ⟨some (str "GRCh38"), some (str "9"), some 33, some (str "C/A/T")⟩ =
      [ str "A", str "T" ].map
        (fun alt => (normalize_chr (str "9"), (33 : Int), str "C", alt)) ∧
    mappingTuples ⟨some (str "GRCh38"), some (str "9"), some 33, some (str "C")⟩ =
      [ (normalize_chr (str "9"), (33 : Int), str "C", str "C") ] :=
  ⟨claim_C5.1 entTriple,
    claim_C5.2.1 (str "9") 33 (str "C/A/T") (str "C") [ str "A", str "T" ]
      (by decide) (by decide) (by decide) (by decide) (by decide),
    claim_C5.2.2.1 (str "9") 33 (str "C") (str "C")
      (by decide) (by decide) (by decide) (by decide)⟩

/-! ### Identifier Normalizer -/

/-- C10: the prefix test is the case-sensitive `startswith("rs")`, so a
trimmed non-blank line not starting with lowercase "rs" gets "rs"
prepended; "RS123" becomes "rsRS123" (an identifier distinct from
"rs123"), while "123" and "rs123" both normalize to "rs123", which is
kept once, at its first position. -/
theorem claim_C10 :
    read_rsids [ str "RS123", str "123", str "rs123" ] =
      [ str "rsRS123", str "rs123" ] ∧
    str "rsRS123" ≠ str "rs123" ∧
    (∀ line : Str, pyStrip line ≠ [] →
      strHasPre (str "rs") (pyStrip line) = false →
      read_rsids [ line ] = [ str "rs" ++ pyStrip line ]) := by
  refine ⟨by decide, by decide, ?_⟩
  intro line h1 h2
  simp [read_rsids, read_rsids_go, h1, h2]

theorem claim_C10_witness :
    read_rsids [ str " 999 " ] = [ str "rs" ++ pyStrip (str " 999 ") ] :=
  claim_C10.2.2 (str " 999 ") (by decide) (by decide)

/-! ### Run-level lemmas -/

theorem read_rsids_go_spec (lines : List Str) :
    ∀ seen : List Str, (read_rsids_go seen lines).Nodup ∧
      ∀ x ∈ read_rsids_go seen lines, x ∉ seen := by
  induction lines with
  | nil => intro seen; simp [read_rsids_go]
  | cons line rest ih =>
    intro seen
    unfold read_rsids_go
    by_cases h1 : pyStrip line = []
    · rw [if_pos h1]
      exact ih seen
    · rw [if_neg h1]
      dsimp only
      by_cases h2 :
          (if strHasPre (str "rs") (pyStrip line) then pyStrip line
            else str "rs" ++ pyStrip line) ∈ seen
      · rw [if_pos h2]
        exact ih seen
      · rw [if_neg h2]
        obtain ⟨hnd, hnots⟩ := ih
          ((if strHasPre (str "rs") (pyStrip line) then pyStrip line
            else str "rs" ++ pyStrip line) :: seen)
        constructor
        · exact List.nodup_cons.mpr
            ⟨fun hx => (hnots _ hx) (List.mem_cons_self _ _), hnd⟩
        · intro x hx
          rcases List.mem_cons.mp hx with rfl | hx2
          · exact h2
          · exact fun hxseen => (hnots x hx2) (List.mem_cons_of_mem _ hxseen)

/-- The identifier list produced by `read_rsids` has no duplicates. -/
theorem read_rsids_nodup (lines : List Str) : (read_rsids lines).Nodup :=
  (read_rsids_go_spec lines []).1

theorem chunksGo_flatten {n : Nat} (hn : 0 < n) :
    ∀ (fuel : Nat) (l : List Str), l.length < fuel →
      (chunksGo fuel l n).flatten = l := by
  intro fuel
  induction fuel with
  | zero => intro l h; omega
  | succ fuel ih =>
    intro l h
    unfold chunksGo
    by_cases hl : l = []
    · simp [hl]
    · rw [if_neg hl]
      rw [List.flatten_cons]
      rw [ih (l.drop n) ?_]
      · exact List.take_append_drop n l
      · have hlen : l.length ≠ 0 := fun h0 => hl (List.length_eq_zero.mp h0)
        rw [List.length_drop]
        omega

/-- Concatenating the batches gives back the identifier list. -/
theorem chunks_flatten (l : List Str) {n : Nat} (hn : 0 < n) :
    (chunks l n).flatten = l := by
  unfold chunks
  rw [if_neg (by omega)]
  exact chunksGo_flatten hn _ l (by omega)

/-- Whether an identifier resolves under a response body: its entry is
present, not error-flagged, and parses to at least one tuple. -/
def resolves (data : Resp) (rs : Str) : Bool :=
  match data rs with
  | none => false
  | some e => if e.hasError then false else !(parse_grch38_mappings e).isEmpty

theorem foldl_addRow_missing (rs : Str) :
    ∀ (l : List Coord) (st : RunState),
      (l.foldl (addRow rs) st).missing = st.missing := by
  intro l
  induction l with
  | nil => intro st; rfl
  | cons t ts ih => intro st; rw [List.foldl_cons, ih]; rfl

theorem foldl_addRow_found (rs : Str) :
    ∀ (l : List Coord) (st : RunState),
      (l.foldl (addRow rs) st).found =
        if l.isEmpty then st.found else insert rs st.found := by
  intro l
  induction l with
  | nil => intro st; rfl
  | cons t ts ih =>
    intro st
    rw [List.foldl_cons, ih]
    by_cases he : ts.isEmpty
    · rw [if_pos he, if_neg (by simp)]
      rfl
    · rw [if_neg he, if_neg (by simp)]
      show insert rs (insert rs st.found) = insert rs st.found
      exact Finset.insert_idem rs st.found

theorem processRsid_missing (data : Resp) (st : RunState) (rs : Str) :
    (processRsid data st rs).missing =
      if resolves data rs = true then st.missing else insert rs st.missing := by
  unfold processRsid resolves
  cases hd : data rs with
  | none => simp
  | some e =>
    by_cases he : e.hasError
    · simp [he]
    · simp only [he, if_false, Bool.false_eq_true]
      by_cases hm : (parse_grch38_mappings e).isEmpty
      · simp [hm]
      · rw [if_neg hm]
        rw [if_pos (show (!(parse_grch38_mappings e).isEmpty) = true by simp [hm])]
        by_cases hl : 1 < (parse_grch38_mappings e).length
        · rw [if_pos hl]
          show ((parse_grch38_mappings e).foldl (addRow rs) st).missing = st.missing
          exact foldl_addRow_missing rs _ st
        · rw [if_neg hl]
          exact foldl_addRow_missing rs _ st

theorem processRsid_found (data : Resp) (st : RunState) (rs : Str) :
    (processRsid data st rs).found =
      if resolves data rs = true then insert rs st.found else st.found := by
  unfold processRsid resolves
  cases hd : data rs with
  | none => simp
  | some e =>
    by_cases he : e.hasError
    · simp [he]
    · simp only [he, if_false, Bool.false_eq_true]
      by_cases hm : (parse_grch38_mappings e).isEmpty
      · simp [hm]
      · rw [if_neg hm]
        rw [if_pos (show (!(parse_grch38_mappings e).isEmpty) = true by simp [hm])]
        by_cases hl : 1 < (parse_grch38_mappings e).length
        · rw [if_pos hl]
          show ((parse_grch38_mappings e).foldl (addRow rs) st).found = insert rs st.found
          rw [foldl_addRow_found, if_neg hm]
        · rw [if_neg hl]
          rw [foldl_addRow_found, if_neg hm]

theorem processBatch_missing_mem (data : Resp) :
    ∀ (b : List Str) (st : RunState) (x : Str),
      x ∈ (processBatch data st b).missing ↔
        x ∈ st.missing ∨ (x ∈ b ∧ resolves data x = false) := by
  intro b
  induction b with
  | nil => intro st x; simp [processBatch]
  | cons rs bs ih =>
    intro st x
    rw [show processBatch data st (rs :: bs) =
        processBatch data (processRsid data st rs) bs from rfl]
    rw [ih (processRsid data st rs) x, processRsid_missing]
    by_cases hr : resolves data rs = true
    · rw [if_pos hr]
      constructor
      · rintro (hm | ⟨hb, hres⟩)
        · exact Or.inl hm
        · exact Or.inr ⟨List.mem_cons_of_mem _ hb, hres⟩
      · rintro (hm | ⟨hb, hres⟩)
        · exact Or.inl hm
        · rcases List.mem_cons.mp hb with rfl | hb2
          · rw [hr] at hres
            cases hres
          · exact Or.inr ⟨hb2, hres⟩
    · rw [if_neg hr]
      have hrf : resolves data rs = false := by
        cases hres : resolves data rs
        · rfl
        · exact absurd hres hr
      constructor
      · rintro (hm | ⟨hb, hres⟩)
        · rcases Finset.mem_insert.mp hm with rfl | hm2
          · exact Or.inr ⟨List.mem_cons_self _ _, hrf⟩
          · exact Or.inl hm2
        · exact Or.inr ⟨List.mem_cons_of_mem _ hb, hres⟩
      · rintro (hm | ⟨hb, hres⟩)
        · exact Or.inl (Finset.mem_insert_of_mem hm)
        · rcases List.mem_cons.mp hb with rfl | hb2
          · exact Or.inl (Finset.mem_insert_self _ _)
          · exact Or.inr ⟨hb2, hres⟩

theorem processBatch_found_mem (data : Resp) :
    ∀ (b : List Str) (st : RunState) (x : Str),
      x ∈ (processBatch data st b).found ↔
        x ∈ st.found ∨ (x ∈ b ∧ resolves data x = true) := by
  intro b
  induction b with
  | nil => intro st x; simp [processBatch]
  | cons rs bs ih =>
    intro st x
    rw [show processBatch data st (rs :: bs) =
        processBatch data (processRsid data st rs) bs from rfl]
    rw [ih (processRsid data st rs) x, processRsid_found]
    by_cases hr : resolves data rs = true
    · rw [if_pos hr]
      constructor
      · rintro (hm | ⟨hb, hres⟩)
        · rcases Finset.mem_insert.mp hm with rfl | hm2
          · exact Or.inr ⟨List.mem_cons_self _ _, hr⟩
          · exact Or.inl hm2
        · exact Or.inr ⟨List.mem_cons_of_mem _ hb, hres⟩
      · rintro (hm | ⟨hb, hres⟩)
        · exact Or.inl (Finset.mem_insert_of_mem hm)
        · rcases List.mem_cons.mp hb with rfl | hb2
          · exact Or.inl (Finset.mem_insert_self _ _)
          · exact Or.inr ⟨hb2, hres⟩
    · rw [if_neg hr]
      constructor
      · rintro (hm | ⟨hb, hres⟩)
        · exact Or.inl hm
        · exact Or.inr ⟨List.mem_cons_of_mem _ hb, hres⟩
      · rintro (hm | ⟨hb, hres⟩)
        · exact Or.inl hm
        · rcases List.mem_cons.mp hb with rfl | hb2
          · exact absurd hres hr
          · exact Or.inr ⟨hb2, hres⟩

/-- Every identifier in a processed batch lands in `found` or `missing`. -/
theorem processBatch_covers (data : Resp) (b : List Str) (st : RunState)
    {x : Str} (hx : x ∈ b) :
    x ∈ (processBatch data st b).found ∨ x ∈ (processBatch data st b).missing := by
  cases hres : resolves data x
  · exact Or.inr ((processBatch_missing_mem data b st x).mpr (Or.inr ⟨hx, hres⟩))
  · exact Or.inl ((processBatch_found_mem data b st x).mpr (Or.inr ⟨hx, hres⟩))

/-- Structural facts about a completed batch loop: `found` and `missing`
grow monotonically, only identifiers of the processed batches are ever
added, and every identifier of a processed batch ends up in one of the
two sets. -/
theorem runBatches_ok_spec (env : Nat → List (NetOutcome Resp)) (mr : Nat) :
    ∀ (bs : List (List Str)) (i : Nat) (st st2 : RunState),
      runBatches env mr bs i st = Except.ok st2 →
      (∀ x, x ∈ st2.found → x ∈ st.found ∨ x ∈ bs.flatten) ∧
      (∀ x, x ∈ st2.missing → x ∈ st.missing ∨ x ∈ bs.flatten) ∧
      (∀ x, x ∈ st.found → x ∈ st2.found) ∧
      (∀ x, x ∈ st.missing → x ∈ st2.missing) ∧
      (∀ x, x ∈ bs.flatten → x ∈ st2.found ∨ x ∈ st2.missing) := by
  intro bs
  induction bs with
  | nil =>
    intro i st st2 h
    have hst : st = st2 := by
      simpa [runBatches] using h
    subst hst
    simp
  | cons b rest ih =>
    intro i st st2 h
    unfold runBatches at h
    cases hp : (post_variation_batch mr (env i)).1 with
    | error e => rw [hp] at h; cases h
    | ok data =>
      rw [hp] at h
      obtain ⟨f1, m1, f2, m2, cov⟩ := ih (i + 1) (processBatch data st b) st2 h
      refine ⟨?_, ?_, ?_, ?_, ?_⟩
      · intro x hx
        rcases f1 x hx with hx2 | hx2
        · rcases (processBatch_found_mem data b st x).mp hx2 with hx3 | ⟨hx3, -⟩
          · exact Or.inl hx3
          · exact Or.inr (by rw [List.flatten_cons]; exact List.mem_append_left _ hx3)
        · exact Or.inr (by rw [List.flatten_cons]; exact List.mem_append_right _ hx2)
      · intro x hx
        rcases m1 x hx with hx2 | hx2
        · rcases (processBatch_missing_mem data b st x).mp hx2 with hx3 | ⟨hx3, -⟩
          · exact Or.inl hx3
          · exact Or.inr (by rw [List.flatten_cons]; exact List.mem_append_left _ hx3)
        · exact Or.inr (by rw [List.flatten_cons]; exact List.mem_append_right _ hx2)
      · intro x hx
        exact f2 x ((processBatch_found_mem data b st x).mpr (Or.inl hx))
      · intro x hx
        exact m2 x ((processBatch_missing_mem data b st x).mpr (Or.inl hx))
      · intro x hx
        rw [List.flatten_cons] at hx
        rcases List.mem_append.mp hx with hx2 | hx2
        · rcases processBatch_covers data b st hx2 with hx3 | hx3
          · exact Or.inl (f2 x hx3)
          · exact Or.inr (m2 x hx3)
        · exact cov x hx2

/-- A completed batch loop keeps `found` and `missing` disjoint, given
that the batches hold pairwise-distinct identifiers not yet present in
either set. -/
theorem runBatches_ok_disjoint (env : Nat → List (NetOutcome Resp)) (mr : Nat) :
    ∀ (bs : List (List Str)) (i : Nat) (st st2 : RunState),
      runBatches env mr bs i st = Except.ok st2 →
      bs.flatten.Nodup →
      (∀ x ∈ bs.flatten, x ∉ st.found ∧ x ∉ st.missing) →
      (∀ x, ¬(x ∈ st.found ∧ x ∈ st.missing)) →
      ∀ x, ¬(x ∈ st2.found ∧ x ∈ st2.missing) := by
  intro bs
  induction bs with
  | nil =>
    intro i st st2 h _ _ hdisj
    have hst : st = st2 := by
      simpa [runBatches] using h
    subst hst
    exact hdisj
  | cons b rest ih =>
    intro i st st2 h hnd hfresh hdisj
    unfold runBatches at h
    cases hp : (post_variation_batch mr (env i)).1 with
    | error e => rw [hp] at h; cases h
    | ok data =>
      rw [hp] at h
      rw [List.flatten_cons] at hnd hfresh
      obtain ⟨hndb, hndrest, hdisjoint⟩ := List.nodup_append.mp hnd
      refine ih (i + 1) (processBatch data st b) st2 h hndrest ?_ ?_
      · intro x hx
        have hxb : x ∉ b := fun hxb => hdisjoint hxb hx
        obtain ⟨hxf, hxm⟩ := hfresh x (List.mem_append_right _ hx)
        constructor
        · intro hc
          rcases (processBatch_found_mem data b st x).mp hc with hc2 | ⟨hc2, -⟩
          · exact hxf hc2
          · exact hxb hc2
        · intro hc
          rcases (processBatch_missing_mem data b st x).mp hc with hc2 | ⟨hc2, -⟩
          · exact hxm hc2
          · exact hxb hc2
      · intro x
        rintro ⟨hxf, hxm⟩
        rcases (processBatch_found_mem data b st x).mp hxf with hf | ⟨hf, hfres⟩
        · rcases (processBatch_missing_mem data b st x).mp hxm with hm | ⟨hm, -⟩
          · exact hdisj x ⟨hf, hm⟩
          · exact (hfresh x (List.mem_append_left _ hm)).1 hf
        · rcases (processBatch_missing_mem data b st x).mp hxm with hm | ⟨hm, hmres⟩
          · exact (hfresh x (List.mem_append_left _ hf)).2 hm
          · rw [hfres] at hmres
            cases hmres

/-- Decomposition of a successful run: the batch loop succeeded and the
final state is its state with the missing set finalized. -/
theorem runMain_ok_parts {env : Nat → List (NetOutcome Resp)} {lines : List Str}
    {n mr : Nat} {st : RunState} (h : runMain env lines n mr = Except.ok st) :
    ∃ stB, runBatches env mr (chunks (read_rsids lines) n) 0 initState =
        Except.ok stB ∧
      st = finalizeMissing (read_rsids lines) stB := by
  unfold runMain at h
  cases hb : runBatches env mr (chunks (read_rsids lines) n) 0 initState with
  | error e => rw [hb] at h; cases h
  | ok stB =>
    rw [hb] at h
    exact ⟨stB, rfl, (Except.ok.inj h).symm⟩

/-! ### Claims C6, C1 — found/missing bookkeeping -/

/-- C6: after a run in which every batch succeeded, each requested
identifier lies in exactly one of the final `found` and `missing` sets —
never in both, never in neither. -/
theorem claim_C6 (env : Nat → List (NetOutcome Resp)) (lines : List Str)
    (n mr : Nat) (st : RunState) (hn : 0 < n)
    (hrun : runMain env lines n mr = Except.ok st) :
    ∀ r ∈ read_rsids lines,
      (r ∈ st.found ∧ r ∉ st.missing) ∨ (r ∉ st.found ∧ r ∈ st.missing) := by
  obtain ⟨stB, hb, rfl⟩ := runMain_ok_parts hrun
  intro r hr
  have hflat : (chunks (read_rsids lines) n).flatten = read_rsids lines :=
    chunks_flatten _ hn
  obtain ⟨-, -, -, -, cov⟩ := runBatches_ok_spec env mr _ 0 initState stB hb
  have hdisj := runBatches_ok_disjoint env mr _ 0 initState stB hb
    (by rw [hflat]; exact read_rsids_nodup lines)
    (fun x _ => ⟨Finset.not_mem_empty x, Finset.not_mem_empty x⟩)
    (fun x hc => Finset.not_mem_empty x hc.1)
  rcases cov r (by rw [hflat]; exact hr) with hf | hm
  · left
    refine ⟨hf, ?_⟩
    show r ∉ stB.missing ∪ ((read_rsids lines).toFinset \ stB.found)
    intro hc
    rcases Finset.mem_union.mp hc with hc2 | hc2
    · exact hdisj r ⟨hf, hc2⟩
    · exact (Finset.mem_sdiff.mp hc2).2 hf
  · right
    have hnf : r ∉ stB.found := fun hf => hdisj r ⟨hf, hm⟩
    exact ⟨hnf, Finset.mem_union_left _ hm⟩

/-- Environment answering every batch at once with entries for all ids. -/
def envOk : Nat → List (NetOutcome Resp) := fun _ =>
  [ NetOutcome.response 200 none respFix ]

/-- The final state of `runMain envOk [ "123" ] 200 5`. -/
def stOk : RunState :=
  { found := { str "rs123" }
    missing := ∅
    id_rows := { str "7:7:A:G" }
    coord_rows := { str "rs123\t7\t7\tA\tG" }
    range_rows := { str "7\t7\t7\trs123" }
    ambig_rows := ∅ }

theorem claim_C6_witness :
    (str "rs123" ∈ stOk.found ∧ str "rs123" ∉ stOk.missing) ∨
    (str "rs123" ∉ stOk.found ∧ str "rs123" ∈ stOk.missing) :=
  claim_C6 envOk [ str "123" ] 200 5 stOk (by decide) (by decide)
    (str "rs123") (by decide)

/-- A response body carrying no entries at all. -/
def respNone : Resp := fun _ => none

/-- Environment whose first batch response is empty and whose later
responses resolve everything. -/
def envMid : Nat → List (NetOutcome Resp) := fun i =>
  if i = 0 then [ NetOutcome.response 200 none respNone ]
  else [ NetOutcome.response 200 none respFix ]

/-- C1 counterexample: in a two-batch run, an identifier absent from the
first batch's response is inserted into `missing` immediately, while the
second batch is still unprocessed — the code marks `missing`
incrementally inside the batch loop (lines 174 and 180), not only at run
end. -/
theorem claim_C1_counterexample :
    chunks (read_rsids [ str "1", str "2" ]) 1 =
      [[ str "rs1" ], [ str "rs2" ]] ∧
    runBatches envMid 5 [[ str "rs1" ], [ str "rs2" ]] 0 initState =
      runBatches envMid 5 [[ str "rs2" ]] 1
        (processBatch respNone initState [ str "rs1" ]) ∧
    str "rs1" ∈ (processBatch respNone initState [ str "rs1" ]).missing := by
  refine ⟨by decide, by decide, by decide⟩

/-- C1 amended: `missing` is populated incrementally — an identifier
whose batch response gives it no usable entry is inserted into `missing`
during that batch — and then topped up at run end with
`requested − found`; the final missing set nonetheless equals
`requested − found`. -/
theorem claim_C1_amended :
    (∀ (data : Resp) (st : RunState) (rs : Str), resolves data rs = false →
      (processRsid data st rs).missing = insert rs st.missing) ∧
    (∀ (env : Nat → List (NetOutcome Resp)) (lines : List Str) (n mr : Nat)
      (st : RunState), 0 < n → runMain env lines n mr = Except.ok st →
      st.missing = (read_rsids lines).toFinset \ st.found) := by
  constructor
  · intro data st rs hres
    rw [processRsid_missing, if_neg (by simp [hres])]
  · intro env lines n mr st hn hrun
    obtain ⟨stB, hb, rfl⟩ := runMain_ok_parts hrun
    have hflat : (chunks (read_rsids lines) n).flatten = read_rsids lines :=
      chunks_flatten _ hn
    obtain ⟨-, m1, -, -, -⟩ := runBatches_ok_spec env mr _ 0 initState stB hb
    have hdisj := runBatches_ok_disjoint env mr _ 0 initState stB hb
      (by rw [hflat]; exact read_rsids_nodup lines)
      (fun x _ => ⟨Finset.not_mem_empty x, Finset.not_mem_empty x⟩)
      (fun x hc => Finset.not_mem_empty x hc.1)
    show stB.missing ∪ ((read_rsids lines).toFinset \ stB.found) =
      (read_rsids lines).toFinset \ stB.found
    refine Finset.union_eq_right.mpr ?_
    intro x hx
    have hxr : x ∈ (read_rsids lines).toFinset := by
      rcases m1 x hx with h0 | h0
      · exact absurd h0 (Finset.not_mem_empty x)
      · rw [hflat] at h0
        exact List.mem_toFinset.mpr h0
    exact Finset.mem_sdiff.mpr ⟨hxr, fun hf => hdisj x ⟨hf, hx⟩⟩

theorem claim_C1_amended_witness :
    (processRsid respNone initState (str "rs7")).missing =
      insert (str "rs7") initState.missing ∧
    stOk.missing = (read_rsids [ str "123" ]).toFinset \ stOk.found :=
  ⟨claim_C1_amended.1 respNone initState (str "rs7") (by decide),
    claim_C1_amended.2 envOk [ str "123" ] 200 5 stOk (by decide) (by decide)⟩

/-! ### Claim C8 — determinism and deduplication of the outputs -/

/-- Parsing is invariant under reordering of the response's mappings
list: the result is the canonical sorted duplicate-free list. -/
theorem parse_perm {e1 e2 : VariationEntry}
    (h : e1.mappings.Perm e2.mappings) :
    parse_grch38_mappings e1 = parse_grch38_mappings e2 := by
  unfold parse_grch38_mappings
  have hperm :
      ((e1.mappings.flatMap mappingTuples).dedup).Perm
        ((e2.mappings.flatMap mappingTuples).dedup) :=
    (h.flatMap_right mappingTuples).dedup
  exact List.eq_of_perm_of_sorted
    ((List.perm_insertionSort coordLe _).trans
      (hperm.trans (List.perm_insertionSort coordLe _).symm))
    (List.sorted_insertionSort coordLe _)
    (List.sorted_insertionSort coordLe _)

/-- C8: the per-identifier aggregation depends only on the entry's error
flag and its set of mappings (not on response ordering); row sets ignore
re-insertion of an already-present row; each output file is the strictly
sorted rendering of its row set (so line order is canonical and no line
repeats); and two runs on identical input and identical responses
produce identical output files. -/
theorem claim_C8 :
    (∀ (data1 data2 : Resp) (st : RunState) (rs : Str)
      (e1 e2 : VariationEntry),
      data1 rs = some e1 → data2 rs = some e2 →
      e1.hasError = e2.hasError → e1.mappings.Perm e2.mappings →
      processRsid data1 st rs = processRsid data2 st rs) ∧
    (∀ (s : Finset Str) (a : Str),
      writeLines (insert a (insert a s)) = writeLines (insert a s)) ∧
    (∀ (s : Finset Str) (a b : Str),
      writeLines (insert a (insert b s)) = writeLines (insert b (insert a s))) ∧
    (∀ s : Finset Str, (writeLinesList s).Sorted (fun a b => a < b)) ∧
    (∀ (env : Nat → List (NetOutcome Resp)) (lines : List Str) (n mr : Nat)
      (st st2 : RunState), runMain env lines n mr = Except.ok st →
      runMain env lines n mr = Except.ok st2 → outputFiles st = outputFiles st2) := by
  refine ⟨?_, ?_, ?_, ?_, ?_⟩
  · intro data1 data2 st rs e1 e2 h1 h2 herr hperm
    have hp : parse_grch38_mappings e1 = parse_grch38_mappings e2 :=
      parse_perm hperm
    unfold processRsid
    rw [h1, h2]
    dsimp only
    rw [herr, hp]
  · intro s a
    unfold writeLines writeLinesList
    rw [Finset.insert_idem]
  · intro s a b
    unfold writeLines writeLinesList
    rw [Finset.Insert.comm]
  · intro s
    exact Finset.sort_sorted_lt s
  · intro env lines n mr st st2 h1 h2
    rw [h1] at h2
    rw [Except.ok.inj h2]

/-- Two single-mapping entries listed in opposite orders. -/
def mapOne : Mapping := ⟨some (str "GRCh38"), some (str "1"), some 5, some (str "A/G")⟩

/-- A second mapping, on another chromosome. -/
def mapTwo : Mapping := ⟨some (str "GRCh38"), some (str "2"), some 6, some (str "C/T")⟩

/-- Entry listing `mapOne` before `mapTwo`. -/
def entOrder1 : VariationEntry := ⟨false, [ mapOne, mapTwo ]⟩

/-- Entry listing `mapTwo` before `mapOne`. -/
def entOrder2 : VariationEntry := ⟨false, [ mapTwo, mapOne ]⟩

theorem claim_C8_witness :
    processRsid (fun _ => some entOrder1) initState (str "rs9") =
      processRsid (fun _ => some entOrder2) initState (str "rs9") ∧
    writeLines (insert (str "a") (insert (str "a") (∅ : Finset Str))) =
      writeLines (insert (str "a") (∅ : Finset Str)) ∧
    (writeLinesList (∅ : Finset Str)).Sorted (fun a b => a < b) :=
  ⟨claim_C8.1 (fun _ => some entOrder1) (fun _ => some entOrder2) initState
      (str "rs9") entOrder1 entOrder2 rfl rfl rfl (List.Perm.swap mapTwo mapOne []),
    claim_C8.2.1 ∅ (str "a"),
    claim_C8.2.2.2.1 ∅⟩
